import Mathlib

/-!
Shallow embedding of the game engine of `src/App.tsx` (a React Native
tic-tac-toe app) and proofs about the claims of its specification.

The engine state of the app is the triple of React state hooks
(`board`, `isXNext`, `winningCells`); `winner`, `isDraw` and `gameOver`
are derived from `board` on every render.  `handlePress` is the single
state transition (`applyMove` in the spec) and `resetGame` restores the
initial state.

Modelling notes on JavaScript semantics:
- A `Cell` is `'X' | 'O' | null`; both `null` and `undefined` (the value
  an out-of-range array read yields) are falsy and are modelled as
  `none`.  All reads the program performs on in-range dense boards
  distinguish only `null` vs a marker, so the conflation is faithful.
- `board[index]` is modelled by `readCell` (`getD index none`): an
  out-of-range read yields `undefined`, i.e. `none`.
- The write `next[index] = marker` on a JavaScript array extends the
  array when `index ≥ length` (intermediate slots become holes, read as
  `undefined`); `writeJS` models this, which matters only for the
  out-of-range behaviour of `handlePress`.
-/

namespace TicTacToe

/-- `type Player = 'X' | 'O'` -/
inductive Player where
  | X
  | O
deriving DecidableEq, Repr

/-- `type Cell = Player | null` -/
abbrev Cell : Type := Option Player

/-- `type Board` — a list of cells; the source fixes its length to 9,
which the embedding tracks as an invariant of reachable states. -/
abbrev Board : Type := List Cell

/-- `WINNING_LINES` from `src/App.tsx` lines 21–30, in source order:
rows, then columns, then diagonals. -/
def WINNING_LINES : List (Nat × Nat × Nat) :=
  [(0, 1, 2), (3, 4, 5), (6, 7, 8),
   (0, 3, 6), (1, 4, 7), (2, 5, 8),
   (0, 4, 8), (2, 4, 6)]

/-- `EMPTY_BOARD` from `src/App.tsx` line 32. -/
def EMPTY_BOARD : Board :=
  List.replicate 9 (none : Cell)

/-- `board[i]`: an in-range read yields the cell, an out-of-range read
yields `undefined`, modelled as `none`. -/
def readCell (b : Board) (i : Nat) : Cell :=
  b.getD i none

/-- The test of one iteration of the loop in `calculateWinner`:
`board[a] && board[a] === board[b] && board[a] === board[c]`. -/
def lineSame (b : Board) (l : Nat × Nat × Nat) : Bool :=
  (readCell b l.1).isSome && readCell b l.1 == readCell b l.2.1
    && readCell b l.1 == readCell b l.2.2

/-- `calculateWinner` from `src/App.tsx` lines 50–57: return `board[a]`
for the first line passing the test, else `null`. -/
def calculateWinner (b : Board) : Option Player :=
  match WINNING_LINES.find? (lineSame b) with
  | some l => readCell b l.1
  | none => none

/-- `isBoardFull` from `src/App.tsx` lines 59–61:
`board.every((cell) => cell !== null)`. -/
def isBoardFull (b : Board) : Bool :=
  b.all fun c => c.isSome

/-- The engine state: the three React state hooks of `App`
(`board`, `isXNext`, `winningCells`). -/
structure GameState where
  board : Board
  isXNext : Bool
  winningCells : List Nat
deriving DecidableEq, Repr

/-- The state at program start: `useState(EMPTY_BOARD)`, `useState(true)`,
`useState([])`. -/
def initialState : GameState :=
  { board := EMPTY_BOARD, isXNext := true, winningCells := [] }

/-- `const winner = calculateWinner(board)` (line 125), derived state. -/
def winner (s : GameState) : Option Player :=
  calculateWinner s.board

/-- `const isDraw = !winner && isBoardFull(board)` (line 126). -/
def isDraw (s : GameState) : Bool :=
  (winner s).isNone && isBoardFull s.board

/-- `const gameOver = Boolean(winner) || isDraw` (line 127). -/
def gameOver (s : GameState) : Bool :=
  (winner s).isSome || isDraw s

/-- `isXNext ? 'X' : 'O'` (line 133). -/
def currentMarker (s : GameState) : Player :=
  if s.isXNext then Player.X else Player.O

/-- JavaScript array element write `b[i] = v`: in range it replaces the
element; past the end it extends the array with holes up to `i`. -/
def writeJS (b : Board) (i : Nat) (v : Cell) : Board :=
  if i < b.length then b.set i v
  else b ++ List.replicate (i - b.length) none ++ [v]

/-- The predicate of the `WINNING_LINES.find` call in `handlePress`
(lines 137–139): `next[a] === newWinner && next[b] === newWinner &&
next[c] === newWinner`. -/
def lineAll (b : Board) (w : Player) (l : Nat × Nat × Nat) : Bool :=
  readCell b l.1 == some w && readCell b l.2.1 == some w
    && readCell b l.2.2 == some w

/-- `handlePress` from `src/App.tsx` lines 129–145 (`applyMove` in the
spec), with the three `set*` hook calls gathered into the returned
state.  `setWinningCells` is called only when the move yields a winner;
`setBoard` and `setIsXNext((prev) => !prev)` are called unconditionally
after the guard. -/
def handlePress (s : GameState) (index : Nat) : GameState :=
  if gameOver s || (readCell s.board index).isSome then s
  else
    let next : Board := writeJS s.board index (some (currentMarker s))
    let newWinningCells : List Nat :=
      match calculateWinner next with
      | some w =>
          match WINNING_LINES.find? (lineAll next w) with
          | some l => [l.1, l.2.1, l.2.2]
          | none => []
      | none => s.winningCells
    { board := next, isXNext := !s.isXNext, winningCells := newWinningCells }

/-- `resetGame` from `src/App.tsx` lines 147–151: `setBoard(EMPTY_BOARD)`,
`setIsXNext(true)`, `setWinningCells([])`.  It reads nothing from the
prior state, so it is a constant. -/
def resetGame : GameState :=
  { board := EMPTY_BOARD, isXNext := true, winningCells := [] }

/-- States reachable from the initial state by `handlePress` calls at
the indices the shell offers (the 9 cells, indices 0–8) and by
`resetGame`. -/
inductive Reachable : GameState → Prop where
  | init : Reachable initialState
  | move (s : GameState) (i : Nat) (hi : i < 9) :
      Reachable s → Reachable (handlePress s i)
  | reset (s : GameState) : Reachable s → Reachable resetGame

/-- Fold a sequence of presses over a state; a test-fixture combinator
used to build concrete reachable states. -/
def applyMoves (s : GameState) (l : List Nat) : GameState :=
  l.foldl handlePress s

/-- A finished game: X plays 0, 1, 2 (top row), O plays 3, 4. -/
def sWon : GameState :=
  applyMoves initialState [0, 3, 1, 4, 2]

/-- Four moves in: X at 0 and 1, O at 3 and 4, X to move. -/
def sC7pre : GameState :=
  applyMoves initialState [0, 3, 1, 4]

/-- Eight moves in: X at 1, 2, 3, 6, O at 4, 5, 7, 8, X to move, cell 0
still empty and no line complete. -/
def sC8 : GameState :=
  applyMoves initialState [1, 4, 2, 5, 3, 7, 6, 8]

/-- A drawn game: all nine cells filled, no line complete. -/
def sDraw : GameState :=
  applyMoves initialState [0, 1, 2, 4, 3, 5, 7, 6, 8]

/-- The canonical lines complete (all three cells the same non-empty
marker) in the board after pressing `i` but not in the board before. -/
def newlyCompleted (s : GameState) (i : Nat) : List (Nat × Nat × Nat) :=
  WINNING_LINES.filter fun l =>
    lineSame (handlePress s i).board l && !(lineSame s.board l)

/-- The invariant of reachable states: the board keeps its 9 cells, and
`winningCells` is empty when there is no winner and names a canonical
line of the winner's cells when there is one. -/
def StateInv (s : GameState) : Prop :=
  s.board.length = 9 ∧
  (calculateWinner s.board = none → s.winningCells = []) ∧
  ∀ w, calculateWinner s.board = some w →
    s.winningCells ∈ WINNING_LINES.map (fun l => [l.1, l.2.1, l.2.2]) ∧
    ∀ j ∈ s.winningCells, readCell s.board j = some w

/-- Spec-side reading of the win test for one line, following the spec:
"a line wins if all 3 of its cells hold the same non-empty marker",
yielding that marker. -/
def lineWinnerSpec (b : Board) (l : Nat × Nat × Nat) : Option Player :=
  match readCell b l.1, readCell b l.2.1, readCell b l.2.2 with
  | some p, some q, some r => if p = q ∧ p = r then some p else none
  | _, _, _ => none

/-- Spec-side reading of `evaluateWinner`: "pure function scanning the
8 lines in the fixed order above; returns the first winning marker
found or none". -/
def evaluateWinnerSpec (b : Board) : Option Player :=
  WINNING_LINES.findSome? (lineWinnerSpec b)

/-! ### Helper lemmas -/

/-- When the guard of `handlePress` fires, the call returns the state
unchanged. -/
lemma handlePress_guard_true (s : GameState) (i : Nat)
    (h : (gameOver s || (readCell s.board i).isSome) = true) :
    handlePress s i = s := by
  unfold handlePress
  rw [if_pos h]

/-- When the guard of `handlePress` passes, the call returns the updated
state. -/
lemma handlePress_guard_false (s : GameState) (i : Nat)
    (hg : gameOver s = false) (hc : readCell s.board i = none) :
    handlePress s i =
      { board := writeJS s.board i (some (currentMarker s)),
        isXNext := !s.isXNext,
        winningCells :=
          match calculateWinner (writeJS s.board i (some (currentMarker s))) with
          | some w =>
              match WINNING_LINES.find? (lineAll (writeJS s.board i (some (currentMarker s))) w) with
              | some l => [l.1, l.2.1, l.2.2]
              | none => []
          | none => s.winningCells } := by
  have hguard : ¬((gameOver s || (readCell s.board i).isSome) = true) := by
    simp [hg, hc]
  unfold handlePress
  rw [if_neg hguard]

/-- `lineWinnerSpec` agrees with the source's per-line test: it yields
the first cell of the line exactly when `lineSame` accepts it. -/
lemma lineWinnerSpec_eq (b : Board) (l : Nat × Nat × Nat) :
    lineWinnerSpec b l = if lineSame b l then readCell b l.1 else none := by
  unfold lineWinnerSpec lineSame
  rcases hp : readCell b l.1 with _ | p <;>
    rcases hq : readCell b l.2.1 with _ | q <;>
      rcases hr : readCell b l.2.2 with _ | r <;>
        simp [hp, hq, hr]

/-- The loop of `calculateWinner` over any list of lines agrees with the
spec-side first-winning-marker scan. -/
lemma winner_scan_aux (b : Board) (L : List (Nat × Nat × Nat)) :
    (match L.find? (lineSame b) with
     | some l => readCell b l.1
     | none => none) = L.findSome? (lineWinnerSpec b) := by
  induction L with
  | nil => simp
  | cons l L ih =>
    rw [List.findSome?_cons, lineWinnerSpec_eq]
    by_cases h : lineSame b l
    · rw [List.find?_cons_of_pos _ h, if_pos h]
      have h1 : (readCell b l.1).isSome := by
        unfold lineSame at h
        exact (Bool.and_eq_true _ _ |>.mp ((Bool.and_eq_true _ _ |>.mp h).1)).1
      rcases Option.isSome_iff_exists.mp h1 with ⟨p, hp⟩
      simp [hp]
    · rw [List.find?_cons_of_neg _ h, if_neg h]
      exact ih

/-- When `calculateWinner` names a winner, the `WINNING_LINES.find` call
of `handlePress` succeeds and yields a canonical line all of whose cells
hold that winner's marker. -/
lemma find_lineAll_of_winner (b : Board) (w : Player)
    (h : calculateWinner b = some w) :
    ∃ l, WINNING_LINES.find? (lineAll b w) = some l ∧ l ∈ WINNING_LINES ∧
      readCell b l.1 = some w ∧ readCell b l.2.1 = some w ∧
      readCell b l.2.2 = some w := by
  unfold calculateWinner at h
  cases hf : WINNING_LINES.find? (lineSame b) with
  | none => rw [hf] at h; exact absurd h (by simp)
  | some l0 =>
    rw [hf] at h
    have hs := List.find?_some hf
    have hm := List.mem_of_find?_eq_some hf
    unfold lineSame at hs
    rw [Bool.and_eq_true, Bool.and_eq_true] at hs
    obtain ⟨⟨_, h2⟩, h3⟩ := hs
    have e2 : readCell b l0.1 = readCell b l0.2.1 := by simpa using h2
    have e3 : readCell b l0.1 = readCell b l0.2.2 := by simpa using h3
    have h1 : readCell b l0.1 = some w := h
    have hall : lineAll b w l0 = true := by
      unfold lineAll
      rw [← e2, ← e3, h1]
      simp
    have hsome : (WINNING_LINES.find? (lineAll b w)).isSome :=
      List.find?_isSome.mpr ⟨l0, hm, hall⟩
    obtain ⟨l, hl⟩ := Option.isSome_iff_exists.mp hsome
    have hla := List.find?_some hl
    unfold lineAll at hla
    rw [Bool.and_eq_true, Bool.and_eq_true] at hla
    obtain ⟨⟨g1, g2⟩, g3⟩ := hla
    exact ⟨l, hl, List.mem_of_find?_eq_some hl,
      by simpa using g1, by simpa using g2, by simpa using g3⟩

/-- `StateInv` holds at the initial state. -/
lemma stateInv_initial : StateInv initialState := by
  refine ⟨by decide, fun _ => rfl, fun w hw => ?_⟩
  rw [show calculateWinner initialState.board = none from by decide] at hw
  exact Option.noConfusion hw

/-- `handlePress` at a shell-offered index preserves `StateInv`. -/
lemma stateInv_handlePress (s : GameState) (i : Nat) (hi : i < 9)
    (h : StateInv s) : StateInv (handlePress s i) := by
  by_cases hg : (gameOver s || (readCell s.board i).isSome) = true
  · rw [handlePress_guard_true s i hg]
    exact h
  · rw [Bool.or_eq_true, not_or] at hg
    obtain ⟨hg1, hg2⟩ := hg
    have hgo : gameOver s = false := by
      cases hb : gameOver s
      · rfl
      · exact absurd hb hg1
    have hcell : readCell s.board i = none := by
      cases hb : readCell s.board i with
      | none => rfl
      | some p => rw [hb] at hg2; exact absurd rfl hg2
    have hwin : calculateWinner s.board = none := by
      have : (winner s).isSome = false := by
        cases hw : (winner s).isSome
        · rfl
        · unfold gameOver at hgo; rw [hw] at hgo; simp at hgo
      unfold winner at this
      exact Option.not_isSome_iff_eq_none.mp (by rw [this]; simp)
    rw [handlePress_guard_false s i hgo hcell]
    have hilen : i < s.board.length := by rw [h.1]; exact hi
    have hwb : writeJS s.board i (some (currentMarker s)) =
        s.board.set i (some (currentMarker s)) := by
      unfold writeJS
      rw [if_pos hilen]
    have hlen : (writeJS s.board i (some (currentMarker s))).length = 9 := by
      rw [hwb, List.length_set, h.1]
    cases hw : calculateWinner (writeJS s.board i (some (currentMarker s))) with
    | none =>
      refine ⟨hlen, fun _ => ?_, fun w hww => ?_⟩
      · simp only [hw]
        exact h.2.1 hwin
      · simp only [hw] at hww ⊢
        exact Option.noConfusion hww
    | some w =>
      obtain ⟨l, hfind, hmem, ha, hb, hc⟩ := find_lineAll_of_winner _ w hw
      refine ⟨hlen, fun hnone => ?_, fun w' hww => ?_⟩
      · simp only [hw] at hnone
        exact Option.noConfusion hnone
      · simp only [hw] at hww
        injection hww with hww
        subst hww
        simp only [hw, hfind]
        refine ⟨List.mem_map.mpr ⟨l, hmem, rfl⟩, fun j hj => ?_⟩
        simp only [List.mem_cons, List.not_mem_nil, or_false] at hj
        rcases hj with rfl | rfl | rfl
        · exact ha
        · exact hb
        · exact hc

/-- Every reachable state satisfies `StateInv`. -/
lemma stateInv_reachable (s : GameState) (h : Reachable s) : StateInv s := by
  induction h with
  | init => exact stateInv_initial
  | move s i hi _ ih => exact stateInv_handlePress s i hi ih
  | reset s _ _ => exact stateInv_initial

/-- A failed guard means the game is not over and the pressed cell is
empty. -/
lemma guard_false_parts (s : GameState) (i : Nat)
    (h : ¬((gameOver s || (readCell s.board i).isSome) = true)) :
    gameOver s = false ∧ readCell s.board i = none := by
  rw [Bool.or_eq_true, not_or] at h
  obtain ⟨h1, h2⟩ := h
  constructor
  · cases hb : gameOver s
    · rfl
    · exact absurd hb h1
  · cases hb : readCell s.board i with
    | none => rfl
    | some p => rw [hb] at h2; exact absurd rfl h2

/-- Pressing a sequence of shell-offered cells keeps the state
reachable. -/
lemma reachable_applyMoves (l : List Nat) :
    ∀ s : GameState, Reachable s → (∀ i ∈ l, i < 9) →
      Reachable (applyMoves s l) := by
  induction l with
  | nil => intro s h _; exact h
  | cons i l ih =>
    intro s h hl
    show Reachable (applyMoves (handlePress s i) l)
    exact ih (handlePress s i)
      (Reachable.move s i (hl i (List.mem_cons_self i l)) h)
      (fun j hj => hl j (List.mem_cons_of_mem i hj))

/-- The finished game `sWon` is reachable. -/
lemma reachable_sWon : Reachable sWon :=
  reachable_applyMoves _ initialState Reachable.init (by decide)

/-- The eight-move position `sC8` is reachable. -/
lemma reachable_sC8 : Reachable sC8 :=
  reachable_applyMoves _ initialState Reachable.init (by decide)

/-! ### Claims -/

/-- C1: `calculateWinner` scans the 8 canonical lines in the fixed order
rows, columns, diagonals, and returns the marker of the first line whose
3 cells all hold the same non-empty marker, or `none` if no such line
exists — it coincides with the spec-side first-winning-marker scan on
every board. -/
theorem calculateWinner_scans_lines_in_order (b : Board) :
    calculateWinner b = evaluateWinnerSpec b := by
  unfold calculateWinner evaluateWinnerSpec
  exact winner_scan_aux b WINNING_LINES

/-- C2: on a terminal state (winner present or draw) or at an occupied
index, `handlePress` is a no-op returning the input state unchanged. -/
theorem handlePress_noop_terminal_or_occupied (s : GameState) (index : Nat)
    (hidx : index ≤ 8)
    (h : (winner s).isSome = true ∨ isDraw s = true ∨
      (readCell s.board index).isSome = true) :
    handlePress s index = s := by
  apply handlePress_guard_true
  rcases h with h | h | h <;> simp [gameOver, h]

theorem handlePress_noop_terminal_or_occupied_witness :
    (readCell (handlePress initialState 0).board 0).isSome = true ∧
    handlePress (handlePress initialState 0) 0 = handlePress initialState 0 :=
  ⟨by decide,
   handlePress_noop_terminal_or_occupied (handlePress initialState 0) 0
     (by decide) (Or.inr (Or.inr (by decide)))⟩

/-- C3: a legal press places the current player's marker at the pressed
index and leaves every other of the 9 cells unchanged. -/
theorem handlePress_sets_only_pressed_cell (s : GameState) (index : Nat)
    (hlen : s.board.length = 9) (hidx : index < 9)
    (hg : gameOver s = false) (hc : readCell s.board index = none) :
    readCell (handlePress s index).board index = some (currentMarker s) ∧
    ∀ j, j < 9 → j ≠ index →
      readCell (handlePress s index).board j = readCell s.board j := by
  have hilen : index < s.board.length := by rw [hlen]; exact hidx
  have hwb : writeJS s.board index (some (currentMarker s)) =
      s.board.set index (some (currentMarker s)) := by
    unfold writeJS
    rw [if_pos hilen]
  rw [handlePress_guard_false s index hg hc, hwb]
  constructor
  · show readCell (s.board.set index (some (currentMarker s))) index =
      some (currentMarker s)
    unfold readCell
    rw [List.getD_eq_getElem?_getD, List.getElem?_set_self hilen]
    rfl
  · intro j hj hne
    show readCell (s.board.set index (some (currentMarker s))) j =
      readCell s.board j
    unfold readCell
    rw [List.getD_eq_getElem?_getD, List.getD_eq_getElem?_getD,
      List.getElem?_set_ne (Ne.symm hne)]

theorem handlePress_sets_only_pressed_cell_witness :
    readCell (handlePress initialState 4).board 4 =
      some (currentMarker initialState) ∧
    readCell (handlePress initialState 4).board 0 =
      readCell initialState.board 0 :=
  ⟨(handlePress_sets_only_pressed_cell initialState 4 (by decide) (by decide)
      (by decide) (by decide)).1,
   (handlePress_sets_only_pressed_cell initialState 4 (by decide) (by decide)
      (by decide) (by decide)).2 0 (by decide) (by decide)⟩

/-- C4: the derived `isDraw` is true exactly when there is no winner and
all 9 cells are occupied, and it is false whenever a winner is present,
so winner-present and draw are mutually exclusive. -/
theorem isDraw_iff_no_winner_and_full (s : GameState)
    (hlen : s.board.length = 9) :
    (isDraw s = true ↔ (winner s = none ∧
      ∀ j, j < 9 → (readCell s.board j).isSome = true)) ∧
    ∀ w, winner s = some w → isDraw s = false := by
  have hmemiff : (∀ c ∈ s.board, c.isSome = true) ↔
      (∀ j, j < 9 → (readCell s.board j).isSome = true) := by
    constructor
    · intro hall j hj
      have hj' : j < s.board.length := by rw [hlen]; exact hj
      unfold readCell
      rw [List.getD_eq_getElem?_getD, List.getElem?_eq_getElem hj']
      exact hall _ (List.getElem_mem hj')
    · intro hall c hc
      obtain ⟨j, hj, hc⟩ := List.mem_iff_getElem.mp hc
      have hs := hall j (by rw [← hlen]; exact hj)
      unfold readCell at hs
      rw [List.getD_eq_getElem?_getD, List.getElem?_eq_getElem hj] at hs
      rw [← hc]
      exact hs
  constructor
  · unfold isDraw isBoardFull
    rw [Bool.and_eq_true]
    constructor
    · rintro ⟨h1, h2⟩
      exact ⟨Option.isNone_iff_eq_none.mp h1,
        hmemiff.mp (List.all_eq_true.mp h2)⟩
    · rintro ⟨h1, h2⟩
      exact ⟨by rw [h1]; rfl, List.all_eq_true.mpr (hmemiff.mpr h2)⟩
  · intro w hw
    unfold isDraw
    rw [hw]
    rfl

theorem isDraw_iff_no_winner_and_full_witness :
    isDraw sDraw = true :=
  (isDraw_iff_no_winner_and_full sDraw (by decide)).1.mpr
    ⟨by decide, by decide⟩

/-- C5: `resetGame` yields the canonical initial state, regardless of
prior state (it reads nothing from it): all 9 cells empty, X to move, no
winner, no draw, no winning line. -/
theorem resetGame_canonical :
    resetGame.board = List.replicate 9 (none : Cell) ∧
    resetGame.isXNext = true ∧ currentMarker resetGame = Player.X ∧
    winner resetGame = none ∧ isDraw resetGame = false ∧
    resetGame.winningCells = [] ∧ resetGame = initialState := by
  decide

/-- C6: in every reachable state, a present winner comes with a
`winningCells` list that is one of the 8 canonical lines and whose 3
indices all hold the winner's marker. -/
theorem winner_implies_winning_line (s : GameState) (hr : Reachable s)
    (w : Player) (hw : winner s = some w) :
    s.winningCells ∈ WINNING_LINES.map (fun l => [l.1, l.2.1, l.2.2]) ∧
    ∀ j ∈ s.winningCells, readCell s.board j = some w :=
  (stateInv_reachable s hr).2.2 w hw

theorem winner_implies_winning_line_witness :
    sWon.winningCells ∈ WINNING_LINES.map (fun l => [l.1, l.2.1, l.2.2]) ∧
    readCell sWon.board 0 = some Player.X :=
  ⟨(winner_implies_winning_line sWon reachable_sWon Player.X (by decide)).1,
   (winner_implies_winning_line sWon reachable_sWon Player.X (by decide)).2
     0 (by decide)⟩

/-- C7 counterexample: at the reachable position `sC7pre` (X at 0 and 1,
O at 3 and 4, X to move), pressing 2 wins for X, yet `isXNext` still
flips: the returned state's next player is O, not the input's X, so a
winning move does not keep `nextPlayer` unchanged. -/
theorem nextPlayer_unchanged_on_win_cex :
    gameOver sC7pre = false ∧ readCell sC7pre.board 2 = none ∧
    winner (handlePress sC7pre 2) = some Player.X ∧
    sC7pre.isXNext = true ∧ (handlePress sC7pre 2).isXNext = false ∧
    currentMarker sC7pre = Player.X ∧
    currentMarker (handlePress sC7pre 2) = Player.O := by
  decide

/-- C7 amended: `isXNext` flips after every successful press, including
the ones that produce a winner or a draw. -/
theorem nextPlayer_flips_after_every_successful_move (s : GameState)
    (i : Nat) (hg : gameOver s = false) (hc : readCell s.board i = none) :
    (handlePress s i).isXNext = !s.isXNext := by
  rw [handlePress_guard_false s i hg hc]

theorem nextPlayer_flips_after_every_successful_move_witness :
    (handlePress initialState 0).isXNext = !initialState.isXNext :=
  nextPlayer_flips_after_every_successful_move initialState 0
    (by decide) (by decide)

/-- C8 counterexample: at the reachable non-terminal position `sC8`
(X at 1, 2, 3, 6, O at 4, 5, 7, 8, X to move), the single press at the
empty cell 0 newly completes two canonical lines, row (0,1,2) and
column (0,3,6) — "at most one line can newly complete per move" fails. -/
theorem two_lines_complete_in_one_move_cex :
    Reachable sC8 ∧ gameOver sC8 = false ∧ readCell sC8.board 0 = none ∧
    newlyCompleted sC8 0 = [(0, 1, 2), (0, 3, 6)] ∧
    (newlyCompleted sC8 0).length = 2 :=
  ⟨reachable_sC8, by decide, by decide, by decide, by decide⟩

/-- C8 amended: a single legal move in a reachable non-terminal state
can newly complete two distinct canonical lines; the fixed scan order is
then observable: `winningCells` is the first of the completed lines in
that order. -/
theorem scan_order_picks_first_completed_line :
    Reachable sC8 ∧ gameOver sC8 = false ∧ readCell sC8.board 0 = none ∧
    (0, 1, 2) ∈ newlyCompleted sC8 0 ∧ (0, 3, 6) ∈ newlyCompleted sC8 0 ∧
    (0, 1, 2) ≠ ((0, 3, 6) : Nat × Nat × Nat) ∧
    (handlePress sC8 0).winningCells = [0, 1, 2] :=
  ⟨reachable_sC8, by decide, by decide, by decide, by decide, by decide,
   by decide⟩

/-- C9 counterexample: `handlePress` performs no range check — the guard
`board[index]` reads `undefined` (falsy) out of range — so pressing the
out-of-range index 9 on the initial state extends the board to length 10
instead of returning the state unchanged. -/
theorem out_of_range_press_changes_state_cex :
    handlePress initialState 9 ≠ initialState ∧
    (handlePress initialState 9).board.length = 10 :=
  ⟨by decide, by decide⟩

/-- C9 amended: for the in-range indices 0–8 the shell actually offers,
every operation keeps the board at exactly 9 cells (illegal in-range
presses are no-ops by C2); out-of-range indices are not guarded against
in the code. -/
theorem board_length_stays_nine_in_range (s : GameState) (i : Nat)
    (hi : i < 9) (hlen : s.board.length = 9) :
    (handlePress s i).board.length = 9 ∧ resetGame.board.length = 9 := by
  refine ⟨?_, by decide⟩
  by_cases hg : (gameOver s || (readCell s.board i).isSome) = true
  · rw [handlePress_guard_true s i hg]
    exact hlen
  · obtain ⟨hg1, hc⟩ := guard_false_parts s i hg
    rw [handlePress_guard_false s i hg1 hc]
    show (writeJS s.board i (some (currentMarker s))).length = 9
    unfold writeJS
    rw [if_pos (by rw [hlen]; exact hi), List.length_set]
    exact hlen

theorem board_length_stays_nine_in_range_witness :
    (handlePress initialState 0).board.length = 9 :=
  (board_length_stays_nine_in_range initialState 0 (by decide) (by decide)).1

/-- C10: in every reachable state with no winner, `winningCells` is the
empty list — the converse of the winner-implies-winning-line
invariant. -/
theorem no_winner_no_winning_line (s : GameState) (hr : Reachable s)
    (hw : winner s = none) : s.winningCells = [] :=
  (stateInv_reachable s hr).2.1 hw

theorem no_winner_no_winning_line_witness :
    winner sC8 = none ∧ sC8.winningCells = [] :=
  ⟨by decide, no_winner_no_winning_line sC8 reachable_sC8 (by decide)⟩

end TicTacToe
